import Mathlib

/-!
Verification model of the conversational scheduling agent
(backend/app/services/schedule_service.py and
backend/app/agents/scheduling_agent.py).

Conventions of the shallow embedding:
* `datetime` values are modelled as natural numbers counting minutes since
  1970-01-01 00:00 (the epoch).  Python datetime comparison is chronological,
  which coincides with the order on `Nat`.  A calendar date is the day index
  `t / 1440`; the time of day is `t % 1440`.
* 1970-01-01 was a Thursday, and Python's `datetime.weekday()` numbers
  Monday as 0 .. Sunday as 6, so `weekday t = (t / 1440 + 3) % 7`.
* The SQLAlchemy store is modelled as an in-memory list of `Meeting` rows;
  queries become list filters, row mutation becomes pointwise list update.
* Database / LLM failures are external nondeterminism; where a claim needs
  them they are passed in explicitly as an outcome value.
* Python `str` operations are re-implemented structurally over the
  character list so that concrete runs evaluate inside the kernel.
-/

/-- Day index (calendar date) of an epoch-minute timestamp. -/
def dayOf (t : Nat) : Nat := t / 1440

/-- Hour of day of an epoch-minute timestamp (Python `datetime.hour`). -/
def hourOf (t : Nat) : Nat := t % 1440 / 60

/-- Python `datetime.weekday()`: Monday = 0 .. Sunday = 6.
    1970-01-01 (day 0) was a Thursday (= 3). -/
def weekdayOf (t : Nat) : Nat := (dayOf t + 3) % 7

/-- `Meeting.status` column: the service only ever writes these three values. -/
inductive Status where
  | proposed
  | confirmed
  | cancelled
deriving DecidableEq

/-- A row of the `meetings` table (backend/app/models/schedule.py). The JSON
    `constraints` map is irrelevant to every claim and is modelled as an
    association list of strings. -/
structure Meeting where
  id : Nat
  title : String
  description : String
  duration_minutes : Nat
  start_time : Nat
  end_time : Nat
  organizer_id : Nat
  participants : List Nat
  status : Status
  meeting_type : String := "general"
  constraints : List (String × String) := []
deriving DecidableEq

/-- `ScheduleService.check_meeting_conflicts`: meetings of `user_id`
    (as organizer or participant) with status proposed/confirmed that
    overlap the half-open probe interval. -/
def check_meeting_conflicts (db : List Meeting) (user_id : Nat)
    (start_time end_time : Nat) : List Meeting :=
  db.filter fun m =>
    decide ((m.organizer_id = user_id ∨ user_id ∈ m.participants) ∧
      (m.status = Status.proposed ∨ m.status = Status.confirmed) ∧
      m.start_time < end_time ∧ m.end_time > start_time)

/-- A concrete meeting occupying [10:00, 11:00) on day 0, used by the
    interval-correctness part of claim C2. -/
def meetingTenEleven : Meeting :=
  { id := 7, title := "standup", description := "", duration_minutes := 60,
    start_time := 600, end_time := 660, organizer_id := 1, participants := [2],
    status := Status.confirmed }

/-- One entry of the list returned by `ScheduleService.get_meeting_suggestions`
    (the Python dict with keys start_time, end_time, date, participant_count;
    ISO strings are modelled by the timestamps they denote). -/
structure Suggestion where
  start_time : Nat
  end_time : Nat
  date : Nat
  participant_count : Nat
deriving DecidableEq

/-- The inner availability check of `get_meeting_suggestions`: every
    participant must have zero conflicts for the probed slot. -/
def all_available (db : List Meeting) (participant_ids : List Nat)
    (slot_start slot_end : Nat) : Bool :=
  participant_ids.all fun user_id =>
    check_meeting_conflicts db user_id slot_start slot_end = []

/-- The `for hour in range(9, 17)` body of `get_meeting_suggestions`: the
    feasible hourly slots of the day of `current_date` (the slot start is
    `current_date.replace(hour=hour, minute=0, second=0, microsecond=0)`). -/
def day_slots (db : List Meeting) (participant_ids : List Nat)
    (duration_minutes current_date : Nat) : List Suggestion :=
  (List.range' 9 8).filterMap fun hour =>
    let slot_start := dayOf current_date * 1440 + hour * 60
    let slot_end := slot_start + duration_minutes
    if all_available db participant_ids slot_start slot_end then
      some { start_time := slot_start, end_time := slot_end,
             date := dayOf current_date,
             participant_count := participant_ids.length }
    else none

/-- The `while current_date <= end_date` loop of `get_meeting_suggestions`:
    for each day it emits the feasible hourly slots with start hour in
    `range(9, 17)`, then advances `current_date` by one day. -/
def suggestLoop (db : List Meeting) (participant_ids : List Nat)
    (duration_minutes : Nat) (end_date current_date : Nat) : List Suggestion :=
  if current_date ≤ end_date then
    day_slots db participant_ids duration_minutes current_date
    ++ suggestLoop db participant_ids duration_minutes end_date (current_date + 1440)
  else []
termination_by end_date + 1 - current_date
decreasing_by omega

/-- `ScheduleService.get_meeting_suggestions`: run the day loop from
    `start_date` and return `suggestions[:10]`. -/
def get_meeting_suggestions (db : List Meeting) (participant_ids : List Nat)
    (duration_minutes start_date end_date : Nat) : List Suggestion :=
  (suggestLoop db participant_ids duration_minutes end_date start_date).take 10

/-- The bare chronological slot enumeration underlying `suggestLoop`
    (every hourly candidate start, before the feasibility filter). -/
def slot_starts (end_date current_date : Nat) : List Nat :=
  if current_date ≤ end_date then
    ((List.range' 9 8).map fun hour => dayOf current_date * 1440 + hour * 60)
    ++ slot_starts end_date (current_date + 1440)
  else []
termination_by end_date + 1 - current_date
decreasing_by omega

/-- The suggestion built for a feasible slot start `t`: its day is the day
    the enumeration was visiting when it generated `t`. -/
def mkSuggestion (participant_ids : List Nat) (duration_minutes t : Nat) :
    Suggestion :=
  { start_time := t, end_time := t + duration_minutes, date := dayOf t,
    participant_count := participant_ids.length }

/-- The scoring step of `ScheduleService.find_optimal_meeting_time`
    (the if/elif hour chain, the weekday bonus, and 0.5 per participant). -/
def score_suggestion (sg : Suggestion) : Rat :=
  let slot_start := sg.start_time
  let hourScore : Rat :=
    if 9 ≤ hourOf slot_start ∧ hourOf slot_start ≤ 11 then 3
    else if 14 ≤ hourOf slot_start ∧ hourOf slot_start ≤ 16 then 2
    else if 12 ≤ hourOf slot_start ∧ hourOf slot_start ≤ 13 then -1
    else 0
  let weekdayScore : Rat := if weekdayOf slot_start < 5 then 2 else 0
  hourScore + weekdayScore + (sg.participant_count : Rat) * (1 / 2)

/-- Model of `scored_suggestions.sort(key=..., reverse=True)` followed by
    `scored_suggestions[0]`: Python's sort is stable, so the head of the
    descending-sorted list is the first entry attaining the maximal score;
    the fold keeps the current best and replaces it only on a strictly
    higher score. -/
def pickTopScored (scored : List (Rat × Suggestion)) : Option (Rat × Suggestion) :=
  match scored with
  | [] => none
  | x :: xs => some (xs.foldl (fun best y => if best.1 < y.1 then y else best) x)

/-- `ScheduleService.find_optimal_meeting_time` (an empty suggestion list
    returns `None`). -/
def find_optimal_meeting_time (db : List Meeting) (participant_ids : List Nat)
    (duration_minutes start_date end_date : Nat) : Option Suggestion :=
  let suggestions :=
    get_meeting_suggestions db participant_ids duration_minutes start_date end_date
  match pickTopScored (suggestions.map fun sg => (score_suggestion sg, sg)) with
  | none => none
  | some top => some top.2

/-- The optional-field record accepted by `ScheduleService.update_meeting`
    (`MeetingUpdate` in backend/app/models/schedule.py). -/
structure MeetingUpdate where
  title : Option String := none
  description : Option String := none
  duration_minutes : Option Nat := none
  start_time : Option Nat := none
  end_time : Option Nat := none
  participants : Option (List Nat) := none
  status : Option Status := none
  constraints : Option (List (String × String)) := none
deriving DecidableEq

/-- The field-by-field `if ... is not None` assignments of `update_meeting`. -/
def applyMeetingUpdate (m : Meeting) (u : MeetingUpdate) : Meeting :=
  { m with
    title := u.title.getD m.title,
    description := u.description.getD m.description,
    duration_minutes := u.duration_minutes.getD m.duration_minutes,
    start_time := u.start_time.getD m.start_time,
    end_time := u.end_time.getD m.end_time,
    participants := u.participants.getD m.participants,
    status := u.status.getD m.status,
    constraints := u.constraints.getD m.constraints }

/-- `ScheduleService.get_meeting`: first row with the given id. -/
def get_meeting (db : List Meeting) (meeting_id : Nat) : Option Meeting :=
  db.find? fun m => m.id == meeting_id

/-- `ScheduleService.update_meeting`: returns the refreshed row (or `none`
    when the id is absent) together with the updated table. -/
def update_meeting (db : List Meeting) (meeting_id : Nat) (u : MeetingUpdate) :
    Option Meeting × List Meeting :=
  match get_meeting db meeting_id with
  | none => (none, db)
  | some m =>
    let m' := applyMeetingUpdate m u
    (some m', db.map fun x => if x.id = meeting_id then m' else x)

/-- The meetings table plus the autoincrement id counter. -/
structure MeetingStore where
  rows : List Meeting
  next_id : Nat
deriving DecidableEq

/-- The row data handed to `ScheduleService.create_meeting` (the
    `meeting_data` dict; `.get` defaults are the field defaults). -/
structure MeetingRowData where
  title : String
  description : String := ""
  duration_minutes : Nat
  start_time : Nat
  end_time : Nat
  organizer_id : Nat
  participants : List Nat
  meeting_type : String := "general"
  constraints : List (String × String) := []
  status : Status := Status.proposed
deriving DecidableEq

/-- `ScheduleService.create_meeting`: insert the row, let the database
    assign the next id, and return the refreshed row.  (A database failure
    makes the Python return `None`; the store itself is external, so the
    success path is the modelled behaviour.) -/
def create_meeting (store : MeetingStore) (d : MeetingRowData) :
    Meeting × MeetingStore :=
  let m : Meeting :=
    { id := store.next_id, title := d.title, description := d.description,
      duration_minutes := d.duration_minutes, start_time := d.start_time,
      end_time := d.end_time, organizer_id := d.organizer_id,
      participants := d.participants, status := d.status,
      meeting_type := d.meeting_type, constraints := d.constraints }
  (m, { rows := store.rows ++ [m], next_id := store.next_id + 1 })

/-- `ScheduleService.get_user_meetings`: optional status filter, then keep
    rows where the user is organizer or participant, then
    `sort(key=start_time, reverse=True)` (a stable descending sort). -/
def get_user_meetings (db : List Meeting) (user_id : Nat)
    (status : Option Status := none) : List Meeting :=
  let all_meetings : List Meeting :=
    match status with
    | some st => db.filter fun m => m.status == st
    | none => db
  let user_meetings := all_meetings.filter fun m =>
    m.organizer_id == user_id || m.participants.contains user_id
  user_meetings.mergeSort fun a b => b.start_time ≤ a.start_time

/-- The `new_meeting_data` dict given to
    `auto_reschedule_conflicting_meetings`. -/
structure NewMeetingData where
  start_time : Nat
  end_time : Nat
  participants : List Nat
deriving DecidableEq

/-- One entry of the report returned by
    `auto_reschedule_conflicting_meetings`.  (The reason string is constant
    in the source and omitted; `old_start_time` is reported from the row as
    it was when the conflict list was computed.) -/
structure ReschedEntry where
  meeting_id : Nat
  title : String
  old_start_time : Nat
  new_start_time : Nat
deriving DecidableEq

/-- The body of the `for conflict in conflicts` loop of
    `auto_reschedule_conflicting_meetings`: look for a replacement slot in
    [new start + 1 day, new start + 7 days]; when one exists, rewrite the
    conflicting meeting to it and report; otherwise the accumulator is
    returned unchanged. -/
def reschedule_one_conflict (start_time : Nat)
    (acc : List Meeting × List ReschedEntry) (conflict : Meeting) :
    List Meeting × List ReschedEntry :=
  let new_suggestions := get_meeting_suggestions acc.1 conflict.participants
    conflict.duration_minutes (start_time + 1440) (start_time + 7 * 1440)
  match new_suggestions with
  | [] => acc
  | new_time :: _ =>
    match update_meeting acc.1 conflict.id
        { start_time := some new_time.start_time,
          end_time := some new_time.end_time } with
    | (none, db') => (db', acc.2)
    | (some _, db') =>
      (db', acc.2 ++ [{ meeting_id := conflict.id, title := conflict.title,
                        old_start_time := conflict.start_time,
                        new_start_time := new_time.start_time }])

/-- `ScheduleService.auto_reschedule_conflicting_meetings`: for every
    participant of the new meeting, process every conflicting meeting found
    in the (current) table. -/
def auto_reschedule_conflicting_meetings (db : List Meeting)
    (nm : NewMeetingData) : List Meeting × List ReschedEntry :=
  nm.participants.foldl
    (fun acc participant_id =>
      (check_meeting_conflicts acc.1 participant_id nm.start_time
        nm.end_time).foldl (reschedule_one_conflict nm.start_time) acc)
    (db, [])

/-- Concrete store for C4: the meeting that conflicts with the new meeting. -/
def meetingToDisplace : Meeting :=
  { id := 0, title := "legacy sync", description := "", duration_minutes := 60,
    start_time := 0, end_time := 60, organizer_id := 1, participants := [2],
    status := Status.confirmed }

/-- Concrete store for C4: a meeting that keeps participant 2 busy through
    the whole 7-day replacement window. -/
def meetingBlocker : Meeting :=
  { id := 1, title := "offsite", description := "", duration_minutes := 11100,
    start_time := 0, end_time := 11100, organizer_id := 2, participants := [],
    status := Status.confirmed }

/-- Concrete new meeting for C4: participant 1, interval [0, 60). -/
def newMeetingC4 : NewMeetingData :=
  { start_time := 0, end_time := 60, participants := [1] }

/-- A row of the users table, as far as
    `UserService.get_user_by_email` needs it. -/
structure UserRow where
  id : Nat
  email : String
deriving DecidableEq

/-- `UserService.get_user_by_email` (external store, first match by email). -/
def get_user_by_email (users : List UserRow) (email : String) : Option UserRow :=
  users.find? fun u => u.email == email

/-- A participant as it appears in the parsed meeting data handed to
    `SchedulingAgent._create_meeting_from_data`: either an email string
    (resolved against the user table) or an already-numeric user id.
    (A non-email string participant would be appended verbatim by the
    Python and corrupt the integer id list; it is outside this model.) -/
inductive ParticipantRef where
  | email (addr : String)
  | uid (id : Nat)
deriving DecidableEq

/-- The `meeting_data` dict handed to `_create_meeting_from_data` (the
    `location` key is passed along by the agent but ignored by
    `create_meeting`). -/
structure CreateMeetingData where
  title : String
  description : String := ""
  duration_minutes : Nat
  start_time : Nat
  participants : List ParticipantRef
  location : String := "TBD"
deriving DecidableEq

/-- The participant-resolution loop of `_create_meeting_from_data`: emails
    are looked up (and silently skipped when unknown), ids pass through. -/
def resolve_participants (users : List UserRow) (ps : List ParticipantRef) :
    List Nat :=
  ps.filterMap fun p =>
    match p with
    | ParticipantRef.email addr => (get_user_by_email users addr).map fun u => u.id
    | ParticipantRef.uid i => some i

/-- `SchedulingAgent._create_meeting_from_data`: parse the start time,
    compute `end_time = start_time + duration`, resolve participants, and
    store the meeting with status "confirmed". -/
def create_meeting_from_data (store : MeetingStore) (users : List UserRow)
    (meeting_data : CreateMeetingData) (user_id : Nat) : Meeting × MeetingStore :=
  let start_time := meeting_data.start_time
  let end_time := start_time + meeting_data.duration_minutes
  let participant_ids := resolve_participants users meeting_data.participants
  create_meeting store
    { title := meeting_data.title, description := meeting_data.description,
      duration_minutes := meeting_data.duration_minutes,
      start_time := start_time, end_time := end_time, organizer_id := user_id,
      participants := participant_ids, status := Status.confirmed }

/-- Python `str.lower()` (ASCII range; every string these claims touch is
    ASCII). -/
def pyLower (s : String) : String := String.mk (s.toList.map Char.toLower)

/-- Is `needle` a prefix of the character list. -/
def listPrefixB : List Char → List Char → Bool
  | [], _ => true
  | _ :: _, [] => false
  | a :: as, b :: bs => a == b && listPrefixB as bs

/-- Is `needle` a contiguous substring of the character list. -/
def listInfixB (needle : List Char) : List Char → Bool
  | [] => listPrefixB needle []
  | hs@(_ :: rest) => listPrefixB needle hs || listInfixB needle rest

/-- Python `needle in haystack` for strings (substring containment). -/
def strContains (haystack needle : String) : Bool :=
  listInfixB needle.toList haystack.toList

/-- Python `str.split()` with no argument: split on whitespace runs and
    drop empty pieces (`acc` holds the current word reversed). -/
def pySplitGo : List Char → List Char → List String
  | acc, [] => if acc.isEmpty then [] else [String.mk acc.reverse]
  | acc, c :: cs =>
    if c.isWhitespace then
      if acc.isEmpty then pySplitGo [] cs
      else String.mk acc.reverse :: pySplitGo [] cs
    else pySplitGo (c :: acc) cs

/-- Python `message.split()`. -/
def pySplit (s : String) : List String := pySplitGo [] s.toList

/-- Python `" ".join(words)`. -/
def joinWords : List String → String
  | [] => ""
  | [w] => w
  | w :: ws => w ++ " " ++ joinWords ws

/-- Python `str.strip()`: drop leading and trailing whitespace. -/
def pyStrip (s : String) : String :=
  String.mk (((s.toList.dropWhile Char.isWhitespace).reverse.dropWhile
    Char.isWhitespace).reverse)

/-- The fixed intent vocabulary of `_analyze_intent`. -/
inductive Intent where
  | view_meetings
  | create_meeting
  | update_meeting
  | delete_meeting
  | delete_all_meetings
  | conversation
deriving DecidableEq

/-- `SchedulingAgent._analyze_intent`: keyword-membership rules over the
    lowercased utterance, evaluated in source order; the first matching
    rule returns; no match falls through to `conversation`.  (Each Python
    `if A: if B: return r` pair is the conjunction `A && B`.) -/
def analyze_intent (message : String) : Intent :=
  let message_lower := pyLower message
  if (["show", "view", "see", "what", "meetings", "schedule", "calendar"].any
        fun word => strContains message_lower word) &&
     (["my", "have", "scheduled"].any fun word => strContains message_lower word) then
    Intent.view_meetings
  else if (["schedule", "create", "set up", "book", "arrange", "meeting"].any
        fun word => strContains message_lower word) &&
     (["new", "a", "with"].any fun word => strContains message_lower word) then
    Intent.create_meeting
  else if ["change", "update", "modify", "move", "reschedule", "edit"].any
        fun word => strContains message_lower word then
    Intent.update_meeting
  else if ["cancel", "delete", "remove", "clear"].any
        fun word => strContains message_lower word then
    Intent.delete_meeting
  else if (["all", "everything", "clear all"].any
        fun word => strContains message_lower word) &&
     (["cancel", "delete", "remove"].any fun word => strContains message_lower word) then
    Intent.delete_all_meetings
  else
    Intent.conversation

/-- The extraction intermediate: the loosely-typed dict built by
    `_extract_meeting_info` or from the model-based extraction output.  A
    missing dict key is `none`; `start_time` ISO strings are modelled by
    the timestamp they denote. -/
structure MeetingInfo where
  title : Option String := none
  start_time : Option Nat := none
  duration_minutes : Option Nat := none
  participants : Option (List String) := none
  emails : Option (List String) := none
  description : Option String := none
  location : Option String := none
deriving DecidableEq

/-- The string-tagged pending-action dicts stored in
    `SchedulingAgent.pending_actions`, one constructor per `"action"` tag
    that the source ever stores. -/
inductive PendingAction where
  | create_meeting (partial_info : MeetingInfo) (missing_fields : List String)
      (suggested_alternative : Option Nat)
  | confirm_create_meeting (meeting_proposal : MeetingInfo)
  | update_meeting (available_meetings : List Meeting)
  | update_meeting_details (target_meeting : Meeting)
  | delete_meeting (available_meetings : List Meeting)
  | confirm_delete_meeting (target_meeting : Meeting)
  | confirm_delete (target_meeting : Meeting)
  | confirm_delete_all (meeting_count : Nat)
deriving DecidableEq

/-- Python dict assignment `d[k] = v` on an association list: overwrite
    the binding in place when the key is present, append otherwise. -/
def dictSet {α : Type} (m : List (Nat × α)) (k : Nat) (v : α) : List (Nat × α) :=
  match m with
  | [] => [(k, v)]
  | e :: es => if e.1 = k then (k, v) :: es else e :: dictSet es k v

/-- Python `del d[k]`. -/
def dictDel {α : Type} (m : List (Nat × α)) (k : Nat) : List (Nat × α) :=
  m.filter fun e => e.1 != k

/-- Python `d.get(k)` / `k in d`. -/
def dictLookup {α : Type} (m : List (Nat × α)) (k : Nat) : Option α :=
  (m.find? fun e => e.1 == k).map fun e => e.2

/-- All entries stored under a key (a real dict has at most one). -/
def entriesFor {α : Type} (m : List (Nat × α)) (k : Nat) : List (Nat × α) :=
  m.filter fun e => e.1 == k

/-- The dict representation invariant: bindings have pairwise distinct
    keys. -/
def KeysNodup {α : Type} (m : List (Nat × α)) : Prop :=
  m.Pairwise fun a b => a.1 ≠ b.1

/-- One turn of the per-user conversation history (role + text; the
    timestamp recorded by the source carries no logic). -/
inductive Turn where
  | user (content : String)
  | assistant (content : String)
deriving DecidableEq

/-- Append a turn to a user's history, creating the list on first use
    (`if user_id not in self.conversation_history: ... = []` then
    `.append(...)`). -/
def histAppend (h : List (Nat × List Turn)) (user_id : Nat) (t : Turn) :
    List (Nat × List Turn) :=
  match dictLookup h user_id with
  | none => dictSet h user_id [t]
  | some ts => dictSet h user_id (ts ++ [t])

/-- A user's history (empty when the user never wrote). -/
def histFor (h : List (Nat × List Turn)) (user_id : Nat) : List Turn :=
  (dictLookup h user_id).getD []

/-- The result dict of `process_message`. -/
structure AgentResponse where
  success : Bool
  message : String
  needs_llm_enhancement : Bool := false
deriving DecidableEq

/-- The process-wide mutable state of `SchedulingAgent`: per-user history
    and per-user pending action. -/
structure AgentState where
  conversation_history : List (Nat × List Turn)
  pending_actions : List (Nat × PendingAction)
deriving DecidableEq

/-- What a handler run does to the acting user's pending-action entry:
    every handler of the source ends in exactly one of these three
    effects (`self.pending_actions[user_id] = {...}` assignments,
    in-place mutations of the stored dict, or `del`). -/
inductive PendingEffect where
  | keep
  | set (a : PendingAction)
  | clear
deriving DecidableEq

/-- Apply a handler's pending-action effect for a user. -/
def applyPendingEffect (m : List (Nat × PendingAction)) (user_id : Nat) :
    PendingEffect → List (Nat × PendingAction)
  | PendingEffect.keep => m
  | PendingEffect.set a => dictSet m user_id a
  | PendingEffect.clear => dictDel m user_id

/-- The generic recoverable-error reply of `_handle_pending_action`'s
    `except` clause. -/
def pending_action_error_message : String :=
  "I\x27m having trouble with that. Let\x27s start over - what would you like to do?"

/-- The generic recoverable-error reply of `process_message`'s own
    `except` clause. -/
def process_error_message : String :=
  "I\x27m having trouble right now. Could you try again in a moment?"

/-- How the dispatched handler run ends: normally, with a pending-action
    effect and a response, or by raising an unhandled exception. -/
inductive HandlerOutcome where
  | ok (effect : PendingEffect) (response : AgentResponse)
  | exc
deriving DecidableEq

/-- `SchedulingAgent.process_message`.  The user turn is appended first;
    a pending action routes to `_handle_pending_action` (whose `except`
    clears the pending action and returns the generic error), otherwise
    the intent handler runs; an exception escaping the no-pending branch
    is caught by `process_message` itself, which returns its generic error
    WITHOUT appending the assistant turn.  The LLM rephrasing step applies
    only to successful responses and is modelled separately
    (`enhance_response_with_llm`). -/
def process_message (st : AgentState) (user_id : Nat) (message : String)
    (outcome : HandlerOutcome) : AgentState × AgentResponse :=
  let st1 : AgentState :=
    { st with conversation_history :=
        histAppend st.conversation_history user_id (Turn.user message) }
  match dictLookup st1.pending_actions user_id, outcome with
  | some _, HandlerOutcome.ok eff resp =>
    let st2 := { st1 with pending_actions :=
        applyPendingEffect st1.pending_actions user_id eff }
    ({ st2 with conversation_history :=
        histAppend st2.conversation_history user_id (Turn.assistant resp.message) },
     resp)
  | some _, HandlerOutcome.exc =>
    let resp : AgentResponse :=
      { success := false, message := pending_action_error_message }
    let st2 := { st1 with pending_actions := dictDel st1.pending_actions user_id }
    ({ st2 with conversation_history :=
        histAppend st2.conversation_history user_id (Turn.assistant resp.message) },
     resp)
  | none, HandlerOutcome.ok eff resp =>
    let st2 := { st1 with pending_actions :=
        applyPendingEffect st1.pending_actions user_id eff }
    ({ st2 with conversation_history :=
        histAppend st2.conversation_history user_id (Turn.assistant resp.message) },
     resp)
  | none, HandlerOutcome.exc =>
    (st1, { success := false, message := process_error_message })

/-- One attempt against the text-completion service: free text or a
    failure carrying the error string. -/
inductive LLMOutcome where
  | ok (content : String)
  | failed (err : String)
deriving DecidableEq

/-- `"429" in str(e) or "quota" in str(e).lower()`. -/
def isRateLimitError (err : String) : Bool :=
  strContains err "429" || strContains (pyLower err) "quota"

/-- `any(word in original_message.lower() for word in ["api", "limit",
    "quota", "temporarily"])`. -/
def mentionsServiceIssue (message : String) : Bool :=
  ["api", "limit", "quota", "temporarily"].any fun word =>
    strContains (pyLower message) word

/-- The note appended to the original reply on a rate-limit failure. -/
def rate_limit_note : String :=
  "\n\n💡 *Note: AI service is experiencing high usage, but all functionality is available.*"

/-- `SchedulingAgent._enhance_response_with_llm`, merged with its call
    site: the stripped rephrasing replaces the reply only when its length
    is strictly between 10 and 500; otherwise (and on any failure) the
    Python returns `None` and the caller keeps the original response —
    except that a rate-limit failure first mutates the original message
    in place, appending the availability note when the original does not
    already mention the service. There is exactly one attempt: no retry
    path exists. -/
def enhance_response_with_llm (outcome : LLMOutcome)
    (response : AgentResponse) : AgentResponse :=
  match outcome with
  | LLMOutcome.ok content =>
    let enhanced_message := pyStrip content
    if 10 < enhanced_message.length && enhanced_message.length < 500 then
      { response with message := enhanced_message }
    else
      response
  | LLMOutcome.failed err =>
    if isRateLimitError err && !(mentionsServiceIssue response.message) then
      { response with message := response.message ++ rate_limit_note }
    else
      response

/-- Leftmost `re.search`: try the matcher at each position. -/
def reSearch {α : Type} (p : List Char → Option α) : List Char → Option α
  | [] => p []
  | cs@(_ :: rest) => p cs <|> reSearch p rest

/-- Numeric value of a digit character. -/
def digitVal (c : Char) : Nat := c.toNat - 48

/-- Numeric value of a digit run (`int(...)` on a captured group). -/
def natOfDigits (ds : List Char) : Nat :=
  ds.foldl (fun acc c => acc * 10 + digitVal c) 0

/-- `\s*(am|pm)` for the pattern-1 tail, keeping hour and minute. -/
def matchAmPmTail (hour minute : Nat) (cs : List Char) :
    Option (Nat × Nat × String) :=
  match cs.dropWhile Char.isWhitespace with
  | 'a' :: 'm' :: _ => some (hour, minute, "am")
  | 'p' :: 'm' :: _ => some (hour, minute, "pm")
  | _ => none

/-- `:(\d{2})\s*(am|pm)` after a captured hour. -/
def matchColonMinutes (hour : Nat) : List Char → Option (Nat × Nat × String)
  | ':' :: m1 :: m2 :: rest =>
    if m1.isDigit && m2.isDigit then
      matchAmPmTail hour (10 * digitVal m1 + digitVal m2) rest
    else none
  | _ => none

/-- Time pattern 1, `(\d{1,2}):(\d{2})\s*(am|pm)`, at one position
    (greedy: two hour digits first, then one). -/
def timePattern1At : List Char → Option (Nat × Nat × String)
  | c1 :: rest =>
    if c1.isDigit then
      (match rest with
       | c2 :: rest2 =>
         if c2.isDigit then
           matchColonMinutes (10 * digitVal c1 + digitVal c2) rest2
         else none
       | [] => none) <|> matchColonMinutes (digitVal c1) rest
    else none
  | [] => none

/-- `\s*(am|pm)` keeping only the hour (pattern 2 tail). -/
def amPmAfterSpaces (hour : Nat) (cs : List Char) : Option (Nat × String) :=
  match cs.dropWhile Char.isWhitespace with
  | 'a' :: 'm' :: _ => some (hour, "am")
  | 'p' :: 'm' :: _ => some (hour, "pm")
  | _ => none

/-- Time pattern 2, `(\d{1,2})\s*(am|pm)`, at one position. -/
def timePattern2At : List Char → Option (Nat × String)
  | c1 :: rest =>
    if c1.isDigit then
      (match rest with
       | c2 :: rest2 =>
         if c2.isDigit then amPmAfterSpaces (10 * digitVal c1 + digitVal c2) rest2
         else none
       | [] => none) <|> amPmAfterSpaces (digitVal c1) rest
    else none
  | [] => none

/-- `:(\d{2})` tail of time pattern 3; the second group is returned as the
    raw two-digit string because the source treats it as the "period". -/
def colonTwoDigits (hour : Nat) : List Char → Option (Nat × String)
  | ':' :: m1 :: m2 :: _ =>
    if m1.isDigit && m2.isDigit then some (hour, String.mk [m1, m2]) else none
  | _ => none

/-- Time pattern 3, `(\d{1,2}):(\d{2})`, at one position. -/
def timePattern3At : List Char → Option (Nat × String)
  | c1 :: rest =>
    if c1.isDigit then
      (match rest with
       | c2 :: rest2 =>
         if c2.isDigit then colonTwoDigits (10 * digitVal c1 + digitVal c2) rest2
         else none
       | [] => none) <|> colonTwoDigits (digitVal c1) rest
    else none
  | [] => none

/-- The shared 12-hour → 24-hour conversion (`if period == "pm" and hour
    != 12: hour += 12 elif period == "am" and hour == 12: hour = 0`).
    For patterns 2 and 3 the source reaches this with minute 0; pattern
    3's "period" is the minutes string, which matches neither arm. -/
def to24Hour (hour : Nat) (period : String) : Nat :=
  if period == "pm" && hour != 12 then hour + 12
  else if period == "am" && hour == 12 then 0
  else hour

/-- The time-extraction loop: the three patterns in source order; the
    result is `datetime.combine(today, time(hour, minute))`.  (The source
    would raise for hour > 23 via `time.replace`; the claims only
    evaluate in-range utterances.) -/
def extract_time (message_lower : List Char) (today : Nat) : Option Nat :=
  match reSearch timePattern1At message_lower with
  | some (hour, minute, period) =>
    some (today * 1440 + to24Hour hour period * 60 + minute)
  | none =>
    match reSearch timePattern2At message_lower with
    | some (hour, period) => some (today * 1440 + to24Hour hour period * 60)
    | none =>
      match reSearch timePattern3At message_lower with
      | some (hour, period) => some (today * 1440 + to24Hour hour period * 60)
      | none => none

/-- A nonempty digit run `(\d+)` and the rest of the input. -/
def digitRun (cs : List Char) : Option (Nat × List Char) :=
  let ds := cs.takeWhile Char.isDigit
  if ds.isEmpty then none else some (natOfDigits ds, cs.drop ds.length)

/-- `\s*(u₁|u₂|…)`: drop whitespace, then the first alternative that
    prefixes the rest, returning it and what follows. -/
def unitAfterSpaces (units : List String) (cs : List Char) :
    Option (String × List Char) :=
  let cs' := cs.dropWhile Char.isWhitespace
  match units.find? fun u => listPrefixB u.toList cs' with
  | none => none
  | some u => some (u, cs'.drop u.toList.length)

/-- `(\d+)\s*(unit-alternatives)` at one position. -/
def durationPatternAt (units : List String) (cs : List Char) :
    Option (Nat × String) :=
  match digitRun cs with
  | none => none
  | some (value, rest) =>
    (unitAfterSpaces units rest).map fun u => (value, u.1)

/-- The compound pattern `(\d+)\s*(hour…)\s*(\d+)\s*(minute…)` at one
    position. -/
def compoundDurationAt (cs : List Char) : Option (Nat × Nat) :=
  match digitRun cs with
  | none => none
  | some (hours, rest1) =>
    match unitAfterSpaces ["hour", "hours", "hr", "hrs"] rest1 with
    | none => none
    | some (_, rest2) =>
      match digitRun (rest2.dropWhile Char.isWhitespace) with
      | none => none
      | some (minutes, rest3) =>
        match unitAfterSpaces ["minute", "minutes", "min", "mins"] rest3 with
        | none => none
        | some _ => some (hours, minutes)

/-- The duration-extraction loop: hours pattern, then minutes pattern,
    then the compound pattern (unreachable, since any compound match
    already matches the hours pattern — kept for fidelity). -/
def extract_duration (message_lower : List Char) : Option Nat :=
  match reSearch (durationPatternAt ["hour", "hours", "hr", "hrs"]) message_lower with
  | some (value, _) => some (value * 60)
  | none =>
    match reSearch (durationPatternAt ["minute", "minutes", "min", "mins"])
        message_lower with
    | some (value, _) => some value
    | none =>
      match reSearch compoundDurationAt message_lower with
      | some (hours, minutes) => some (hours * 60 + minutes)
      | none => none

/-- The `\s+([^,]+)` tail shared by the "with" and "about" patterns:
    at least one whitespace char, consumed greedily with backtracking
    (`j` whitespace chars consumed, from all of them down to one), then a
    nonempty comma-free capture. -/
def wsCaptureBack (cs : List Char) : Nat → Option (List Char)
  | 0 => none
  | j + 1 =>
    let cap := (cs.drop (j + 1)).takeWhile fun c => c ≠ ','
    if cap.isEmpty then wsCaptureBack cs j else some cap

/-- `\s+([^,]+)`. -/
def wsCapture (cs : List Char) : Option (List Char) :=
  wsCaptureBack cs (cs.takeWhile Char.isWhitespace).length

/-- `with\s+([^,]+)` at one position. -/
def withPatternAt : List Char → Option (List Char)
  | 'w' :: 'i' :: 't' :: 'h' :: rest => wsCapture rest
  | _ => none

/-- `about\s+([^,]+)` at one position. -/
def aboutPatternAt : List Char → Option (List Char)
  | 'a' :: 'b' :: 'o' :: 'u' :: 't' :: rest => wsCapture rest
  | _ => none

/-- `"([^"]+)"` at one position (greedy nonempty run, then the closing
    quote). -/
def quotedPatternAt : List Char → Option (List Char)
  | '"' :: rest =>
    let inner := rest.takeWhile fun c => c ≠ '"'
    if inner.isEmpty then none
    else
      match rest.drop inner.length with
      | '"' :: _ => some inner
      | _ => none
  | _ => none

/-- `\w` of the email pattern's `\b` boundaries. -/
def isWordChar (c : Char) : Bool := c.isAlphanum || c == '_'

/-- `[A-Za-z0-9._%+-]` (the local part of the email pattern). -/
def isLocalChar (c : Char) : Bool :=
  c.isAlphanum || c == '.' || c == '_' || c == '%' || c == '+' || c == '-'

/-- `[A-Za-z0-9.-]` (the domain part). -/
def isDomainChar (c : Char) : Bool := c.isAlphanum || c == '.' || c == '-'

/-- `[A-Z|a-z]` (the TLD class of the source pattern — it literally
    contains `|`). -/
def isTldChar (c : Char) : Bool := c.isAlpha || c == '|'

/-- A word boundary `\b` between the previous character (none at the
    string edge) and the current one. -/
def boundaryOk (prev : Option Char) (c : Char) : Bool :=
  (match prev with
   | none => false
   | some p => isWordChar p) != isWordChar c

/-- `[A-Z|a-z]{2,}\b`: the longest TLD run whose following character is
    not a word character, trying shorter runs on failure. -/
def tldTry (cs : List Char) : Nat → Option (List Char × List Char)
  | 0 => none
  | 1 => none
  | l + 2 =>
    let nextOk :=
      match cs.drop (l + 2) with
      | [] => true
      | c :: _ => !(isWordChar c)
    if nextOk then some (cs.take (l + 2), cs.drop (l + 2))
    else tldTry cs (l + 1)

/-- `[A-Z|a-z]{2,}\b` from the char after the dot. -/
def matchTld (cs : List Char) : Option (List Char × List Char) :=
  tldTry cs (cs.takeWhile isTldChar).length

/-- `[A-Za-z0-9.-]+\.TLD`: greedy domain run, backtracking to each `.`
    inside it from the right. -/
def tryDots (local_part : List Char) (cs : List Char) :
    Nat → Option (List Char × List Char)
  | 0 => none
  | j + 1 =>
    (match cs.drop (j + 1) with
     | '.' :: tldRest =>
       (matchTld tldRest).map fun tld =>
         (local_part ++ '@' :: cs.take (j + 1) ++ '.' :: tld.1, tld.2)
     | _ => none) <|> tryDots local_part cs j

/-- The full email pattern at one position, returning the matched text
    and the remaining input. -/
def emailMatchAt (prev : Option Char) (cs : List Char) :
    Option (List Char × List Char) :=
  match cs with
  | [] => none
  | c :: _ =>
    if boundaryOk prev c then
      let local_part := cs.takeWhile isLocalChar
      if local_part.isEmpty then none
      else
        match cs.drop local_part.length with
        | '@' :: domRest =>
          let run := domRest.takeWhile isDomainChar
          if run.isEmpty then none
          else tryDots local_part domRest run.length
        | _ => none
    else none

/-- `re.findall` for the email pattern: scan left to right, resuming
    after each non-overlapping match.  The fuel argument is purely a
    termination device; `|input| + 1` always suffices because every step
    consumes at least one character. -/
def emailFindAllAux : Nat → Option Char → List Char → List String
  | 0, _, _ => []
  | _ + 1, _, [] => []
  | fuel + 1, prev, cs@(c :: rest) =>
    match emailMatchAt prev cs with
    | some (matched, after) =>
      String.mk matched :: emailFindAllAux fuel matched.getLast? after
    | none => emailFindAllAux fuel (some c) rest

/-- `re.findall(email_pattern, message)` (on the original-case message). -/
def emailFindAll (message : String) : List String :=
  emailFindAllAux (message.length + 1) none message.toList

/-- The first `i > 0` with `words[i].lower() == "meeting"` (the loop
    breaks only after such an index). -/
def titleIndex : List String → Nat → Option Nat
  | [], _ => none
  | w :: ws, i =>
    if pyLower w == "meeting" && decide (0 < i) then some i
    else titleIndex ws (i + 1)

/-- The `words[max(0, i-2):i]` title heuristic of `_extract_meeting_info`. -/
def titleBeforeMeeting (words : List String) : Option String :=
  match titleIndex words 0 with
  | none => none
  | some i =>
    let lo := i - 2
    let potential_title := joinWords ((words.drop lo).take (i - lo))
    if potential_title ≠ "" && potential_title.length > 2 then
      some potential_title
    else none

/-- The title extraction: a quoted string anywhere, else the two words
    before the first later occurrence of "meeting". -/
def find_meeting_title (message : String) : Option String :=
  match reSearch quotedPatternAt message.toList with
  | some inner => some (String.mk inner)
  | none =>
    if strContains (pyLower message) "meeting" then
      titleBeforeMeeting (pySplit message)
    else none

/-- `with\s+([^,]+)` participants (stored stripped, as a one-element
    list). -/
def extract_participants (message_lower : List Char) : Option (List String) :=
  (reSearch withPatternAt message_lower).map fun cap => [pyStrip (String.mk cap)]

/-- `about\s+([^,]+)` topic, kept only when its strip is longer than 2. -/
def extract_description (message_lower : List Char) : Option String :=
  match reSearch aboutPatternAt message_lower with
  | none => none
  | some cap =>
    let topic := pyStrip (String.mk cap)
    if topic ≠ "" && topic.length > 2 then some topic else none

/-- `SchedulingAgent._extract_meeting_info`: the rule-based field map
    (`today` is the server date the time extractor anchors to). -/
def extract_meeting_info (today : Nat) (message : String) : MeetingInfo :=
  let message_lower := (pyLower message).toList
  { title := find_meeting_title message,
    start_time := extract_time message_lower today,
    duration_minutes := extract_duration message_lower,
    participants := extract_participants message_lower,
    emails :=
      match emailFindAll message with
      | [] => none
      | es => some es,
    description := extract_description message_lower,
    location := none }

/-- The parsed model-based extraction output (the JSON object with its
    `action` tag; absent fields are `none`). -/
structure ActionData where
  action : String
  title : Option String := none
  start_time : Option Nat := none
  duration_minutes : Option Nat := none
  participants : Option (List String) := none
  description : Option String := none
  location : Option String := none
deriving DecidableEq

/-- The outcome of the structured-extraction request: the call itself can
    raise (service unavailable), or it returns text whose tolerant JSON
    recovery yields `some` parsed object or `none`. -/
inductive ModelExtraction where
  | unavailable
  | output (parsed : Option ActionData)
deriving DecidableEq

/-- The `meeting_info` dict built from a valid model-based extraction
    (`description` defaults to `""`, `location` to `"TBD"`). -/
def actionDataToInfo (a : ActionData) : MeetingInfo :=
  { title := a.title, start_time := a.start_time,
    duration_minutes := a.duration_minutes, participants := a.participants,
    emails := none, description := some (a.description.getD ""),
    location := some (a.location.getD "TBD") }

/-- The backend validation of required fields, in source order; a field is
    missing when its value is Python-falsy (absent, empty string, empty
    list, or zero). -/
def compute_missing_fields (info : MeetingInfo) : List String :=
  (if info.title = none ∨ info.title = some "" then ["meeting title"] else []) ++
  (if info.start_time = none then ["date and time"] else []) ++
  (if info.participants = none ∨ info.participants = some [] then
    ["participants"] else []) ++
  (if info.duration_minutes = none ∨ info.duration_minutes = some 0 then
    ["duration"] else [])

/-- The reply of the create handler, by branch (`via_llm` records whether
    the clarifying question came from the service or the fallback
    template — the stored pending action is identical either way). -/
inductive CreateReply where
  | suggest_alternative (alt : Option Nat)
  | ask_missing (missing : List String) (via_llm : Bool)
  | confirm_proposal (proposal : MeetingInfo)
  | create_error
deriving DecidableEq

/-- The tail of the create handler shared by the model-based and
    rule-based paths: ask for whatever is missing (storing the
    `create_meeting` pending action), else store the
    `confirm_create_meeting` proposal and ask for confirmation. -/
def createWithInfo (meeting_info : MeetingInfo) (clarify_llm_ok : Bool) :
    PendingEffect × CreateReply :=
  let missing_info := compute_missing_fields meeting_info
  if missing_info ≠ [] then
    (PendingEffect.set (PendingAction.create_meeting meeting_info missing_info none),
     CreateReply.ask_missing missing_info clarify_llm_ok)
  else
    (PendingEffect.set (PendingAction.confirm_create_meeting meeting_info),
     CreateReply.confirm_proposal meeting_info)

/-- `SchedulingAgent._handle_create_meeting_conversational`: an exception
    from the extraction call is caught by the handler's outer `except`
    (error reply, pending action untouched); a parsed object whose action
    tag is not in the expected vocabulary is discarded in favour of the
    rule-based extractor; a `suggest_alternative` tag stores a
    `create_meeting` pending action with empty missing fields and the
    suggested time. -/
def handle_create_meeting_conversational (today : Nat)
    (model : ModelExtraction) (clarify_llm_ok : Bool) (message : String) :
    PendingEffect × CreateReply :=
  match model with
  | ModelExtraction.unavailable => (PendingEffect.keep, CreateReply.create_error)
  | ModelExtraction.output parsed =>
    match parsed with
    | some a =>
      if a.action == "create_meeting" || a.action == "suggest_alternative" then
        let meeting_info := actionDataToInfo a
        if a.action == "suggest_alternative" then
          (PendingEffect.set
            (PendingAction.create_meeting meeting_info [] a.start_time),
           CreateReply.suggest_alternative a.start_time)
        else createWithInfo meeting_info clarify_llm_ok
      else createWithInfo (extract_meeting_info today message) clarify_llm_ok
    | none => createWithInfo (extract_meeting_info today message) clarify_llm_ok

/-- The scenario-B utterance of the spec. -/
def scenarioBMessage : String :=
  "schedule a meeting tomorrow at 2pm for 30 minutes with a@b.com"

/-- What the rule-based extractor actually produces for the scenario-B
    utterance on server date `today`. -/
def scenarioBInfo (today : Nat) : MeetingInfo :=
  { title := some "schedule a", start_time := some (today * 1440 + 840),
    duration_minutes := some 30, participants := some ["a@b.com"],
    emails := some ["a@b.com"], description := none, location := none }

/-- A concrete pre-rephrase response for the C7 counterexample. -/
def c7_original_response : AgentResponse :=
  { success := true, message := "Original reply." }

/-! ## Theorems -/

/-- C2: the conflict detector returns exactly the meetings of the probed user
    with status in proposed/confirmed satisfying the half-open overlap test
    `existing.start < e AND existing.end > s`; concretely, a meeting occupying
    [10:00, 11:00) conflicts with probe [10:30, 11:30) but not with probe
    [11:00, 12:00). -/
theorem claim_C2_conflict_detector :
    (∀ (db : List Meeting) (uid s e : Nat) (m : Meeting),
        m ∈ check_meeting_conflicts db uid s e ↔
          m ∈ db ∧ (m.organizer_id = uid ∨ uid ∈ m.participants) ∧
            (m.status = Status.proposed ∨ m.status = Status.confirmed) ∧
            m.start_time < e ∧ m.end_time > s) ∧
    meetingTenEleven ∈ check_meeting_conflicts [meetingTenEleven] 1 630 690 ∧
    meetingTenEleven ∉ check_meeting_conflicts [meetingTenEleven] 1 660 720 := by
  refine ⟨fun db uid s e m => ?_, by decide, by decide⟩
  simp [check_meeting_conflicts, List.mem_filter, and_assoc]

theorem slot_starts_step (end_date current_date : Nat)
    (h : current_date ≤ end_date) :
    slot_starts end_date current_date =
      ((List.range' 9 8).map fun hour => dayOf current_date * 1440 + hour * 60)
      ++ slot_starts end_date (current_date + 1440) := by
  rw [slot_starts]; simp [h]

theorem slot_starts_stop (end_date current_date : Nat)
    (h : ¬ current_date ≤ end_date) :
    slot_starts end_date current_date = [] := by
  rw [slot_starts]; simp [h]

theorem suggestLoop_step (db : List Meeting) (ps : List Nat)
    (dur end_date current_date : Nat) (h : current_date ≤ end_date) :
    suggestLoop db ps dur end_date current_date =
      day_slots db ps dur current_date
      ++ suggestLoop db ps dur end_date (current_date + 1440) := by
  rw [suggestLoop]; simp [h]

theorem suggestLoop_stop (db : List Meeting) (ps : List Nat)
    (dur end_date current_date : Nat) (h : ¬ current_date ≤ end_date) :
    suggestLoop db ps dur end_date current_date = [] := by
  rw [suggestLoop]; simp [h]

theorem dayOf_day_slot (D h : Nat) (hh : h < 24) :
    dayOf (D * 1440 + h * 60) = D := by
  unfold dayOf
  omega

theorem dayOf_add_day (t : Nat) : dayOf (t + 1440) = dayOf t + 1 := by
  unfold dayOf
  omega

theorem day_slots_core (db : List Meeting) (ps : List Nat) (dur D : Nat) :
    ∀ (l : List Nat), (∀ h ∈ l, h < 24) →
    (l.filterMap fun hour =>
      let slot_start := D * 1440 + hour * 60
      let slot_end := slot_start + dur
      if all_available db ps slot_start slot_end then
        some { start_time := slot_start, end_time := slot_end, date := D,
               participant_count := ps.length }
      else none)
    = ((l.map fun hour => D * 1440 + hour * 60).filter fun t =>
        all_available db ps t (t + dur)).map (mkSuggestion ps dur) := by
  intro l
  induction l with
  | nil => intro _; rfl
  | cons a l ih =>
    intro hl
    have ha : dayOf (D * 1440 + a * 60) = D :=
      dayOf_day_slot D a (hl a (List.mem_cons_self a l))
    by_cases hav : all_available db ps (D * 1440 + a * 60) (D * 1440 + a * 60 + dur)
    · simp only [List.filterMap_cons, List.map_cons, List.filter_cons, hav,
        if_true, ih fun h hm => hl h (List.mem_cons_of_mem a hm)]
      simp [mkSuggestion, ha]
    · simp only [List.filterMap_cons, List.map_cons, List.filter_cons, hav,
        if_false, ih fun h hm => hl h (List.mem_cons_of_mem a hm)]
      simp [hav]

theorem day_slots_eq (db : List Meeting) (ps : List Nat) (dur cur : Nat) :
    day_slots db ps dur cur =
      (((List.range' 9 8).map fun hour => dayOf cur * 1440 + hour * 60).filter
        fun t => all_available db ps t (t + dur)).map (mkSuggestion ps dur) :=
  day_slots_core db ps dur (dayOf cur) (List.range' 9 8) (by decide)

theorem suggestLoop_eq_filter (db : List Meeting) (ps : List Nat)
    (dur e : Nat) : ∀ cur, suggestLoop db ps dur e cur
      = ((slot_starts e cur).filter fun t =>
          all_available db ps t (t + dur)).map (mkSuggestion ps dur) := by
  intro cur
  induction cur using suggestLoop.induct db ps dur e with
  | case1 cur hle ih =>
    rw [suggestLoop_step db ps dur e cur hle, slot_starts_step e cur hle, ih,
      List.filter_append, List.map_append, day_slots_eq]
  | case2 cur hle =>
    rw [suggestLoop_stop db ps dur e cur hle, slot_starts_stop e cur hle]
    rfl

theorem mem_slot_starts (e : Nat) : ∀ cur t, t ∈ slot_starts e cur ↔
    ∃ k h, cur + 1440 * k ≤ e ∧ 9 ≤ h ∧ h < 17 ∧
      t = dayOf (cur + 1440 * k) * 1440 + h * 60 := by
  intro cur
  induction cur using slot_starts.induct e with
  | case1 cur hle ih =>
    intro t
    rw [slot_starts_step e cur hle]
    simp only [List.mem_append, List.mem_map, List.mem_range'_1]
    constructor
    · rintro (⟨h, ⟨h9, h17⟩, rfl⟩ | hrest)
      · exact ⟨0, h, by omega, h9, by omega, by simp⟩
      · obtain ⟨k, h, hk, h9, h17, rfl⟩ := (ih t).mp hrest
        refine ⟨k + 1, h, by omega, h9, h17, ?_⟩
        rw [show cur + 1440 * (k + 1) = cur + 1440 + 1440 * k by ring]
    · rintro ⟨k, h, hk, h9, h17, rfl⟩
      cases k with
      | zero => exact Or.inl ⟨h, ⟨h9, by omega⟩, by simp⟩
      | succ k =>
        refine Or.inr ((ih _).mpr ⟨k, h, by omega, h9, h17, ?_⟩)
        rw [show cur + 1440 + 1440 * k = cur + 1440 * (k + 1) by ring]
  | case2 cur hle =>
    intro t
    rw [slot_starts_stop e cur hle]
    simp only [List.not_mem_nil, false_iff, not_exists]
    intro k h hk
    omega

theorem slot_starts_lower (e : Nat) : ∀ cur, ∀ t ∈ slot_starts e cur,
    dayOf cur * 1440 + 540 ≤ t := by
  intro cur
  induction cur using slot_starts.induct e with
  | case1 cur hle ih =>
    intro t ht
    rw [slot_starts_step e cur hle, List.mem_append] at ht
    rcases ht with h | h
    · obtain ⟨hh, hmem, rfl⟩ := List.mem_map.mp h
      have h9 : 9 ≤ hh := (List.mem_range'_1.mp hmem).1
      omega
    · have := ih t h
      rw [dayOf_add_day] at this
      omega
  | case2 cur hle =>
    intro t ht
    rw [slot_starts_stop e cur hle] at ht
    cases ht

theorem slot_starts_pairwise (e : Nat) :
    ∀ cur, List.Pairwise (· < ·) (slot_starts e cur) := by
  intro cur
  induction cur using slot_starts.induct e with
  | case1 cur hle ih =>
    rw [slot_starts_step e cur hle]
    refine List.pairwise_append.mpr ⟨?_, ih, ?_⟩
    · have base : List.Pairwise (· < ·) (List.range' 9 8) := by decide
      exact base.map (fun hour => dayOf cur * 1440 + hour * 60)
        fun a b hab => by
          show dayOf cur * 1440 + a * 60 < dayOf cur * 1440 + b * 60
          omega
    · intro x hx y hy
      obtain ⟨hh, hmem, rfl⟩ := List.mem_map.mp hx
      have h17 : hh < 17 := (List.mem_range'_1.mp hmem).2
      have := slot_starts_lower e (cur + 1440) y hy
      rw [dayOf_add_day] at this
      omega
  | case2 cur hle =>
    rw [slot_starts_stop e cur hle]
    exact List.Pairwise.nil

/-- C6: the suggestion query enumerates hourly candidate slots with start
    hour in the 09:00-17:00 business window for each date of the range, in
    chronological order; a slot is kept only when the conflict detector
    reports zero conflicts for every participant; the first 10 feasible
    slots are returned. -/
theorem claim_C6_meeting_suggestions :
    ∀ (db : List Meeting) (ps : List Nat) (dur s e : Nat),
      get_meeting_suggestions db ps dur s e
        = (((slot_starts e s).filter fun t => all_available db ps t (t + dur)).map
            (mkSuggestion ps dur)).take 10 ∧
      List.Pairwise (· < ·) (slot_starts e s) ∧
      (∀ t, t ∈ slot_starts e s ↔ ∃ k h, s + 1440 * k ≤ e ∧ 9 ≤ h ∧ h < 17 ∧
        t = dayOf (s + 1440 * k) * 1440 + h * 60) ∧
      List.Pairwise (fun a b => a.start_time < b.start_time)
        (get_meeting_suggestions db ps dur s e) ∧
      (∀ u ∈ ps, ∀ sg ∈ get_meeting_suggestions db ps dur s e,
        check_meeting_conflicts db u sg.start_time sg.end_time = []) := by
  intro db ps dur s e
  have heq : get_meeting_suggestions db ps dur s e
      = (((slot_starts e s).filter fun t => all_available db ps t (t + dur)).map
          (mkSuggestion ps dur)).take 10 := by
    unfold get_meeting_suggestions
    rw [suggestLoop_eq_filter]
  refine ⟨heq, slot_starts_pairwise e s, mem_slot_starts e s, ?_, ?_⟩
  · rw [heq]
    refine List.Pairwise.sublist (List.take_sublist _ _) ?_
    refine List.Pairwise.map (mkSuggestion ps dur) ?_
      (List.Pairwise.filter _ (slot_starts_pairwise e s))
    intro a b hab
    exact hab
  · intro u hu sg hsg
    rw [heq] at hsg
    have hsg' := List.mem_of_mem_take hsg
    obtain ⟨t, htf, rfl⟩ := List.mem_map.mp hsg'
    have hall : all_available db ps t (t + dur) = true := (List.mem_filter.mp htf).2
    have hdec := List.all_eq_true.mp hall u hu
    exact of_decide_eq_true hdec

/-- The fold modelling the stable descending sort plus `[0]` returns the
    first entry of the list attaining the maximal score: everything before
    it scores strictly less, everything after it scores no more. -/
theorem pick_first_max (f : Suggestion → Rat) :
    ∀ (xs : List Suggestion) (x : Suggestion),
    ∃ l1 l2 r, x :: xs = l1 ++ r :: l2 ∧
      ((xs.map fun sg => (f sg, sg)).foldl
        (fun best y => if best.1 < y.1 then y else best) (f x, x)) = (f r, r) ∧
      (∀ y ∈ l1, f y < f r) ∧ (∀ y ∈ l2, f y ≤ f r) := by
  intro xs
  induction xs with
  | nil =>
    intro x
    exact ⟨[], [], x, rfl, rfl, by simp, by simp⟩
  | cons y ys ih =>
    intro x
    by_cases hxy : f x < f y
    · obtain ⟨l1, l2, r, heq, hfold, h1, h2⟩ := ih y
      have hyr : f y ≤ f r := by
        cases l1 with
        | nil =>
          have : y = r := by simpa using congrArg (fun l => l.head?) heq
          exact this ▸ le_refl _
        | cons z l1' =>
          have hz : z = y ∧ l1' ++ r :: l2 = ys := by simpa using heq.symm
          exact le_of_lt (h1 y (hz.1 ▸ List.mem_cons_self z l1'))
      refine ⟨x :: l1, l2, r, by simpa using heq, ?_, ?_, h2⟩
      · simpa [hxy] using hfold
      · intro z hz
        rcases List.mem_cons.mp hz with rfl | hz'
        · exact lt_of_lt_of_le hxy hyr
        · exact h1 z hz'
    · obtain ⟨l1, l2, r, heq, hfold, h1, h2⟩ := ih x
      have hfold' : ((ys.map fun sg => (f sg, sg)).foldl
          (fun best y => if best.1 < y.1 then y else best) (f x, x)) = (f r, r) :=
        hfold
      cases l1 with
      | nil =>
        have hx : x = r ∧ ys = l2 := by simpa using heq
        refine ⟨[], y :: ys, r, by simp [hx.1], ?_, by simp, ?_⟩
        · simpa [hxy] using hfold'
        · intro z hz
          rcases List.mem_cons.mp hz with rfl | hz'
          · exact hx.1 ▸ le_of_not_lt hxy
          · exact h2 z (hx.2 ▸ hz')
      | cons w l1' =>
        have hw : x = w ∧ ys = l1' ++ r :: l2 := by simpa using heq
        have hxmem : x ∈ w :: l1' := by
          rw [hw.1]; exact List.mem_cons_self w l1'
        have hxr : f x < f r := h1 x hxmem
        refine ⟨x :: y :: l1', l2, r, ?_, ?_, ?_, h2⟩
        · simp [hw.2]
        · simpa [hxy] using hfold'
        · intro z hz
          rcases List.mem_cons.mp hz with rfl | hz'
          · exact hxr
          · rcases List.mem_cons.mp hz' with rfl | hz''
            · exact lt_of_le_of_lt (le_of_not_lt hxy) hxr
            · exact h1 z (List.mem_cons_of_mem w hz'')

/-- C5 counterexample: with an empty store, one participant, and the range
    Saturday day 2 00:00 .. Monday day 4 00:00, every slot is feasible, yet
    the optimal-time query returns the Saturday 09:00 slot (start 3420):
    the Monday 09:00 slot (start 6300) is feasible and in range and scores
    strictly higher (5.5 vs 3.5), but lies beyond the first 10 feasible
    slots that the query considers.  So the query does not return the
    highest-scored feasible slot of the range. -/
theorem claim_C5_counterexample :
    find_optimal_meeting_time [] [1] 60 2880 5760
      = some (mkSuggestion [1] 60 3420) ∧
    6300 ∈ slot_starts 5760 2880 ∧
    all_available [] [1] 6300 (6300 + 60) = true ∧
    score_suggestion (mkSuggestion [1] 60 3420)
      < score_suggestion (mkSuggestion [1] 60 6300) := by
  refine ⟨?_, ?_, by decide,
    by norm_num [score_suggestion, mkSuggestion, hourOf, weekdayOf, dayOf]⟩
  · simp only [find_optimal_meeting_time, get_meeting_suggestions]
    rw [suggestLoop_step _ _ _ _ _ (by omega), suggestLoop_step _ _ _ _ _ (by omega),
      suggestLoop_step _ _ _ _ _ (by omega), suggestLoop_stop _ _ _ _ _ (by omega)]
    norm_num [day_slots, all_available, check_meeting_conflicts, List.filterMap,
      List.range', pickTopScored, List.foldl, score_suggestion, mkSuggestion,
      hourOf, weekdayOf, dayOf]
  · rw [slot_starts_step _ _ (by omega), slot_starts_step _ _ (by omega),
      slot_starts_step _ _ (by omega), slot_starts_stop _ _ (by omega)]
    decide

/-- C5 (amended): each slot's score is the stated sum of independent terms
    (+3 for start hour in [9,11], +2 for [14,16], -1 for [12,13], +2 for a
    weekday, 0.5 per participant); the optimal-time query returns `none`
    exactly when no feasible slot exists in range, and otherwise returns the
    first highest-scored slot AMONG THE FIRST 10 feasible slots (the
    suggestion list), ties resolving to the chronologically earliest; for
    identical participant counts a 10:00 weekday slot always outscores a
    12-hour weekday slot. -/
theorem claim_C5_amended :
    (∀ sg : Suggestion, score_suggestion sg =
        (if 9 ≤ hourOf sg.start_time ∧ hourOf sg.start_time ≤ 11 then (3 : Rat) else 0)
      + (if 14 ≤ hourOf sg.start_time ∧ hourOf sg.start_time ≤ 16 then (2 : Rat) else 0)
      + (if 12 ≤ hourOf sg.start_time ∧ hourOf sg.start_time ≤ 13 then (-1 : Rat) else 0)
      + (if weekdayOf sg.start_time < 5 then (2 : Rat) else 0)
      + (sg.participant_count : Rat) * (1 / 2)) ∧
    (∀ db ps dur s e, find_optimal_meeting_time db ps dur s e = none ↔
        get_meeting_suggestions db ps dur s e = []) ∧
    (∀ db ps dur s e sg, find_optimal_meeting_time db ps dur s e = some sg →
        ∃ l1 l2, get_meeting_suggestions db ps dur s e = l1 ++ sg :: l2 ∧
          (∀ x ∈ l1, score_suggestion x < score_suggestion sg) ∧
          (∀ x ∈ l2, score_suggestion x ≤ score_suggestion sg)) ∧
    (∀ (a b : Suggestion), hourOf a.start_time = 10 → weekdayOf a.start_time < 5 →
        hourOf b.start_time = 12 → weekdayOf b.start_time < 5 →
        a.participant_count = b.participant_count →
        score_suggestion b < score_suggestion a) := by
  refine ⟨?_, ?_, ?_, ?_⟩
  · intro sg
    by_cases h1 : 9 ≤ hourOf sg.start_time ∧ hourOf sg.start_time ≤ 11
    · have h2 : ¬ (14 ≤ hourOf sg.start_time ∧ hourOf sg.start_time ≤ 16) := by omega
      have h3 : ¬ (12 ≤ hourOf sg.start_time ∧ hourOf sg.start_time ≤ 13) := by omega
      simp [score_suggestion, h1, h2, h3]
    · by_cases h2 : 14 ≤ hourOf sg.start_time ∧ hourOf sg.start_time ≤ 16
      · have h3 : ¬ (12 ≤ hourOf sg.start_time ∧ hourOf sg.start_time ≤ 13) := by omega
        simp [score_suggestion, h1, h2, h3]
      · by_cases h3 : 12 ≤ hourOf sg.start_time ∧ hourOf sg.start_time ≤ 13
        · simp [score_suggestion, h1, h2, h3]
        · simp [score_suggestion, h1, h2, h3]
  · intro db ps dur s e
    cases hs : get_meeting_suggestions db ps dur s e with
    | nil => simp [find_optimal_meeting_time, pickTopScored, hs]
    | cons a l => simp [find_optimal_meeting_time, pickTopScored, hs]
  · intro db ps dur s e sg hopt
    cases hs : get_meeting_suggestions db ps dur s e with
    | nil => simp [find_optimal_meeting_time, pickTopScored, hs] at hopt
    | cons a l =>
      obtain ⟨l1, l2, r, heq, hfold, h1, h2⟩ := pick_first_max score_suggestion l a
      have hval : find_optimal_meeting_time db ps dur s e = some r := by
        simp [find_optimal_meeting_time, pickTopScored, hs, hfold]
      rw [hval] at hopt
      obtain rfl := Option.some.inj hopt
      exact ⟨l1, l2, heq, h1, h2⟩
  · intro a b ha10 hawd hb12 hbwd hpc
    have ha1 : 9 ≤ hourOf a.start_time ∧ hourOf a.start_time ≤ 11 := by omega
    have ha2 : ¬ (14 ≤ hourOf a.start_time ∧ hourOf a.start_time ≤ 16) := by omega
    have ha3 : ¬ (12 ≤ hourOf a.start_time ∧ hourOf a.start_time ≤ 13) := by omega
    have hb1 : ¬ (9 ≤ hourOf b.start_time ∧ hourOf b.start_time ≤ 11) := by omega
    have hb2 : ¬ (14 ≤ hourOf b.start_time ∧ hourOf b.start_time ≤ 16) := by omega
    have hb3 : 12 ≤ hourOf b.start_time ∧ hourOf b.start_time ≤ 13 := by omega
    simp [score_suggestion, ha1, ha2, ha3, hb1, hb2, hb3, hawd, hbwd, hpc]
    linarith

/-- Witness for C5 (amended): the decomposition at a concrete query (empty
    store, day 0, one participant: the 09:00 slot wins) and the concrete
    10:00-vs-12:00 weekday comparison. -/
theorem claim_C5_amended_witness :
    (∃ l1 l2, get_meeting_suggestions [] [1] 60 0 0
        = l1 ++ mkSuggestion [1] 60 540 :: l2 ∧
      (∀ x ∈ l1, score_suggestion x < score_suggestion (mkSuggestion [1] 60 540)) ∧
      (∀ x ∈ l2, score_suggestion x ≤ score_suggestion (mkSuggestion [1] 60 540))) ∧
    score_suggestion (mkSuggestion [1] 60 720)
      < score_suggestion (mkSuggestion [1] 60 600) :=
  ⟨claim_C5_amended.2.2.1 [] [1] 60 0 0 (mkSuggestion [1] 60 540) (by
      simp only [find_optimal_meeting_time, get_meeting_suggestions]
      rw [suggestLoop_step _ _ _ _ _ (by omega), suggestLoop_stop _ _ _ _ _ (by omega)]
      norm_num [day_slots, all_available, check_meeting_conflicts, List.filterMap,
        List.range', pickTopScored, List.foldl, score_suggestion, mkSuggestion,
        hourOf, weekdayOf, dayOf]),
   claim_C5_amended.2.2.2 (mkSuggestion [1] 60 600) (mkSuggestion [1] 60 720)
      (by decide) (by decide) (by decide) (by decide) (by decide)⟩

/-- In the C4 store, no replacement slot exists for the displaced meeting:
    every hourly slot of the 7-day window conflicts with the blocker. -/
theorem c4_suggestions_empty :
    get_meeting_suggestions [meetingToDisplace, meetingBlocker] [2] 60 1440 10080
      = [] := by
  simp only [get_meeting_suggestions]
  rw [suggestLoop_step _ _ _ _ _ (by omega), suggestLoop_step _ _ _ _ _ (by omega),
    suggestLoop_step _ _ _ _ _ (by omega), suggestLoop_step _ _ _ _ _ (by omega),
    suggestLoop_step _ _ _ _ _ (by omega), suggestLoop_step _ _ _ _ _ (by omega),
    suggestLoop_step _ _ _ _ _ (by omega), suggestLoop_stop _ _ _ _ _ (by omega)]
  decide

/-- The empty-replacement branch of the inner loop: when the suggestion
    query finds no slot, the accumulator (table and report) is unchanged. -/
theorem reschedule_one_conflict_empty (st : Nat)
    (acc : List Meeting × List ReschedEntry) (c : Meeting)
    (h : get_meeting_suggestions acc.1 c.participants c.duration_minutes
      (st + 1440) (st + 7 * 1440) = []) :
    reschedule_one_conflict st acc c = acc := by
  unfold reschedule_one_conflict
  rw [h]

/-- C4 counterexample: the new meeting [0, 60) for participant 1 conflicts
    with `meetingToDisplace`, and no replacement slot exists in the window,
    yet `auto_reschedule_conflicting_meetings` returns an empty report: the
    unresolved conflict is silently dropped, contradicting the claim that
    every conflict is surfaced to the caller. -/
theorem claim_C4_counterexample :
    auto_reschedule_conflicting_meetings [meetingToDisplace, meetingBlocker]
        newMeetingC4 = ([meetingToDisplace, meetingBlocker], []) ∧
    check_meeting_conflicts [meetingToDisplace, meetingBlocker] 1
        newMeetingC4.start_time newMeetingC4.end_time = [meetingToDisplace] := by
  refine ⟨?_, by decide⟩
  unfold auto_reschedule_conflicting_meetings
  rw [show newMeetingC4.participants = [1] from rfl]
  rw [List.foldl_cons, List.foldl_nil]
  show (check_meeting_conflicts ([meetingToDisplace, meetingBlocker],
      ([] : List ReschedEntry)).1 1 newMeetingC4.start_time newMeetingC4.end_time).foldl
      (reschedule_one_conflict newMeetingC4.start_time)
      ([meetingToDisplace, meetingBlocker], []) = ([meetingToDisplace, meetingBlocker], [])
  rw [show (check_meeting_conflicts ([meetingToDisplace, meetingBlocker],
      ([] : List ReschedEntry)).1 1 newMeetingC4.start_time newMeetingC4.end_time)
      = [meetingToDisplace] from by decide]
  rw [List.foldl_cons, List.foldl_nil]
  rw [show newMeetingC4.start_time = 0 from rfl]
  exact reschedule_one_conflict_empty _ _ _ c4_suggestions_empty

/-- C4 (amended): auto-reschedule visits, for every participant of the new
    meeting, every conflicting meeting found in the current table; a
    conflict with a replacement slot in [new start + 1 day, new start +
    7 days] is rewritten to the first such slot and reported; a conflict
    with no replacement slot (or whose row has vanished) contributes
    NOTHING to the returned report — only successfully rescheduled meetings
    are reported, unresolved conflicts are dropped. -/
theorem claim_C4_amended :
    (∀ (db : List Meeting) (nm : NewMeetingData),
        auto_reschedule_conflicting_meetings db nm =
          nm.participants.foldl
            (fun acc participant_id =>
              (check_meeting_conflicts acc.1 participant_id nm.start_time
                nm.end_time).foldl (reschedule_one_conflict nm.start_time) acc)
            (db, [])) ∧
    (∀ (st : Nat) (acc : List Meeting × List ReschedEntry) (c : Meeting),
      (get_meeting_suggestions acc.1 c.participants c.duration_minutes
          (st + 1440) (st + 7 * 1440) = [] →
        reschedule_one_conflict st acc c = acc) ∧
      (∀ s0 rest,
        get_meeting_suggestions acc.1 c.participants c.duration_minutes
            (st + 1440) (st + 7 * 1440) = s0 :: rest →
        (∀ m, get_meeting acc.1 c.id = some m →
          reschedule_one_conflict st acc c =
            (acc.1.map fun x => if x.id = c.id then
                applyMeetingUpdate m { start_time := some s0.start_time,
                                       end_time := some s0.end_time } else x,
             acc.2 ++ [{ meeting_id := c.id, title := c.title,
                         old_start_time := c.start_time,
                         new_start_time := s0.start_time }])) ∧
        (get_meeting acc.1 c.id = none →
          reschedule_one_conflict st acc c = (acc.1, acc.2)))) := by
  refine ⟨fun db nm => rfl, fun st acc c => ⟨?_, fun s0 rest hcons => ⟨?_, ?_⟩⟩⟩
  · intro hempty
    unfold reschedule_one_conflict
    rw [hempty]
  · intro m hget
    unfold reschedule_one_conflict
    rw [hcons]
    simp only [update_meeting, hget]
  · intro hget
    unfold reschedule_one_conflict
    rw [hcons]
    simp only [update_meeting, hget]

/-- Witness for C4 (amended): the empty-replacement branch at the concrete
    C4 store. -/
theorem claim_C4_amended_witness :
    reschedule_one_conflict 0 ([meetingToDisplace, meetingBlocker], [])
      meetingToDisplace = ([meetingToDisplace, meetingBlocker], []) :=
  (claim_C4_amended.2 0 ([meetingToDisplace, meetingBlocker], [])
    meetingToDisplace).1 c4_suggestions_empty

/-- C8: creating a meeting with title T, start S and duration D and then
    reading the organizer's meetings back yields a meeting (the created
    one) with title T, start_time S and end_time S + D. -/
theorem claim_C8_round_trip :
    ∀ (store : MeetingStore) (users : List UserRow) (T desc loc : String)
      (S D u : Nat) (ps : List ParticipantRef),
      ((create_meeting_from_data store users
          { title := T, description := desc, duration_minutes := D,
            start_time := S, participants := ps, location := loc } u).1.title = T) ∧
      ((create_meeting_from_data store users
          { title := T, description := desc, duration_minutes := D,
            start_time := S, participants := ps, location := loc } u).1.start_time = S) ∧
      ((create_meeting_from_data store users
          { title := T, description := desc, duration_minutes := D,
            start_time := S, participants := ps, location := loc } u).1.end_time = S + D) ∧
      ((create_meeting_from_data store users
          { title := T, description := desc, duration_minutes := D,
            start_time := S, participants := ps, location := loc } u).1 ∈
        get_user_meetings (create_meeting_from_data store users
          { title := T, description := desc, duration_minutes := D,
            start_time := S, participants := ps, location := loc } u).2.rows u) := by
  intro store users T desc loc S D u ps
  refine ⟨rfl, rfl, rfl, ?_⟩
  unfold get_user_meetings
  rw [List.mem_mergeSort, List.mem_filter]
  constructor
  · show _ ∈ store.rows ++ [_]
    exact List.mem_append_right _ (List.mem_singleton.mpr rfl)
  · show ((create_meeting_from_data store users _ u).1.organizer_id == u || _) = true
    simp [create_meeting_from_data, create_meeting]

theorem beq_nat_eq {a b : Nat} (h : (a == b) = true) : a = b := by
  simpa using h

theorem entriesFor_length_le_one {α : Type} (m : List (Nat × α)) (u : Nat)
    (hm : KeysNodup m) : (entriesFor m u).length ≤ 1 := by
  induction m with
  | nil => simp [entriesFor]
  | cons e es ih =>
    obtain ⟨h1, h2⟩ := List.pairwise_cons.mp hm
    by_cases heu : e.1 = u
    · have hes : entriesFor es u = [] := by
        unfold entriesFor
        rw [List.filter_eq_nil_iff]
        intro x hx hxu
        exact h1 x hx (heu.trans (beq_nat_eq hxu).symm)
      unfold entriesFor at hes ⊢
      rw [List.filter_cons]
      simp [heu, hes]
    · unfold entriesFor at ih ⊢
      rw [List.filter_cons]
      simpa [heu] using ih h2

theorem dictSet_key_mem {α : Type} (m : List (Nat × α)) (k : Nat) (v : α) :
    ∀ b ∈ dictSet m k v, b.1 = k ∨ b ∈ m := by
  induction m with
  | nil =>
    intro b hb
    rw [dictSet, List.mem_singleton] at hb
    exact Or.inl (by rw [hb])
  | cons e es ih =>
    intro b hb
    rw [dictSet] at hb
    by_cases hek : e.1 = k
    · rw [if_pos hek, List.mem_cons] at hb
      rcases hb with rfl | hb
      · exact Or.inl rfl
      · exact Or.inr (List.mem_cons_of_mem e hb)
    · rw [if_neg hek, List.mem_cons] at hb
      rcases hb with rfl | hb
      · exact Or.inr (List.mem_cons_self b es)
      · rcases ih b hb with h | h
        · exact Or.inl h
        · exact Or.inr (List.mem_cons_of_mem e h)

theorem keysNodup_dictSet {α : Type} (m : List (Nat × α)) (k : Nat) (v : α)
    (hm : KeysNodup m) : KeysNodup (dictSet m k v) := by
  induction m with
  | nil => exact List.pairwise_singleton _ _
  | cons e es ih =>
    obtain ⟨h1, h2⟩ := List.pairwise_cons.mp hm
    rw [dictSet]
    by_cases hek : e.1 = k
    · rw [if_pos hek]
      exact List.pairwise_cons.mpr ⟨fun b hb => hek ▸ h1 b hb, h2⟩
    · rw [if_neg hek]
      refine List.pairwise_cons.mpr ⟨fun b hb => ?_, ih h2⟩
      rcases dictSet_key_mem es k v b hb with hbk | hbm
      · rw [hbk]; exact hek
      · exact h1 b hbm

theorem keysNodup_dictDel {α : Type} (m : List (Nat × α)) (k : Nat)
    (hm : KeysNodup m) : KeysNodup (dictDel m k) :=
  List.Pairwise.filter _ hm

theorem entriesFor_dictSet_self {α : Type} (m : List (Nat × α)) (k : Nat)
    (v : α) (hm : KeysNodup m) : entriesFor (dictSet m k v) k = [(k, v)] := by
  induction m with
  | nil => simp [dictSet, entriesFor]
  | cons e es ih =>
    obtain ⟨h1, h2⟩ := List.pairwise_cons.mp hm
    rw [dictSet]
    by_cases hek : e.1 = k
    · rw [if_pos hek]
      have hes : entriesFor es k = [] := by
        unfold entriesFor
        rw [List.filter_eq_nil_iff]
        intro x hx hxk
        exact h1 x hx (hek.trans (beq_nat_eq hxk).symm)
      unfold entriesFor at hes ⊢
      rw [List.filter_cons]
      simp [hes]
    · rw [if_neg hek]
      unfold entriesFor at ih ⊢
      rw [List.filter_cons]
      simpa [hek] using ih h2

theorem entriesFor_dictSet_ne {α : Type} (m : List (Nat × α)) (k v' : Nat)
    (v : α) (hne : v' ≠ k) :
    entriesFor (dictSet m k v) v' = entriesFor m v' := by
  have hkv : ¬ (k = v') := fun hc => hne hc.symm
  induction m with
  | nil => simp [dictSet, entriesFor, hkv]
  | cons e es ih =>
    rw [dictSet]
    by_cases hek : e.1 = k
    · rw [if_pos hek]
      unfold entriesFor
      rw [List.filter_cons, List.filter_cons]
      simp [hkv, hek]
    · rw [if_neg hek]
      unfold entriesFor at ih ⊢
      rw [List.filter_cons, List.filter_cons]
      by_cases hev : e.1 = v' <;> simp [hev, ih]

theorem entriesFor_dictDel_self {α : Type} (m : List (Nat × α)) (k : Nat) :
    entriesFor (dictDel m k) k = [] := by
  unfold entriesFor dictDel
  rw [List.filter_eq_nil_iff]
  intro x hx hxk
  have := (List.mem_filter.mp hx).2
  simp [beq_nat_eq hxk] at this

theorem entriesFor_dictDel_ne {α : Type} (m : List (Nat × α)) (k v' : Nat)
    (hne : v' ≠ k) : entriesFor (dictDel m k) v' = entriesFor m v' := by
  induction m with
  | nil => rfl
  | cons e es ih =>
    unfold entriesFor dictDel at ih ⊢
    rw [List.filter_cons]
    have hkv : ¬ (k = v') := fun hc => hne hc.symm
    by_cases hek : e.1 = k
    · have hev : ¬ (e.1 = v') := fun hc => hne (hc.symm.trans hek)
      rw [List.filter_cons]
      simp [hek, hev, hkv, ih]
    · rw [List.filter_cons]
      by_cases hev : e.1 = v' <;> simp [hek, hev, hne, ih]

theorem dictLookup_dictDel_self {α : Type} (m : List (Nat × α)) (k : Nat) :
    dictLookup (dictDel m k) k = none := by
  induction m with
  | nil => rfl
  | cons e es ih =>
    unfold dictDel at ih ⊢
    rw [List.filter_cons]
    by_cases hek : e.1 = k
    · rw [if_neg (by simp [hek] : ¬ (e.1 != k) = true)]
      exact ih
    · rw [if_pos (by simp [hek] : (e.1 != k) = true)]
      unfold dictLookup at ih ⊢
      rw [List.find?_cons_of_neg _ (by simp [hek])]
      exact ih

theorem dictLookup_dictSet_self {α : Type} (m : List (Nat × α)) (k : Nat)
    (v : α) : dictLookup (dictSet m k v) k = some v := by
  induction m with
  | nil => simp [dictSet, dictLookup, List.find?]
  | cons e es ih =>
    rw [dictSet]
    by_cases hek : e.1 = k
    · rw [if_pos hek]
      simp [dictLookup, List.find?]
    · rw [if_neg hek]
      unfold dictLookup at ih ⊢
      rw [List.find?_cons_of_neg _ (by simp [hek])]
      exact ih

theorem histFor_histAppend_self (h : List (Nat × List Turn)) (u : Nat)
    (t : Turn) : histFor (histAppend h u t) u = histFor h u ++ [t] := by
  unfold histAppend histFor
  cases hl : dictLookup h u with
  | none => rw [dictLookup_dictSet_self]; simp
  | some ts => rw [dictLookup_dictSet_self]; simp

/-- C1: on every operation of the dialogue state machine the per-user
    pending-action table keeps at most one entry per user; the acting
    user's entry is left in place, replaced by exactly one new entry, or
    removed; no other user's entry changes. -/
theorem claim_C1_single_pending_action :
    ∀ (st : AgentState) (user_id : Nat) (message : String)
      (outcome : HandlerOutcome),
      KeysNodup st.pending_actions →
      KeysNodup (process_message st user_id message outcome).1.pending_actions ∧
      (∀ v, (entriesFor
        (process_message st user_id message outcome).1.pending_actions v).length ≤ 1) ∧
      (∀ v, v ≠ user_id →
        entriesFor (process_message st user_id message outcome).1.pending_actions v
          = entriesFor st.pending_actions v) ∧
      (entriesFor (process_message st user_id message outcome).1.pending_actions user_id
          = entriesFor st.pending_actions user_id ∨
       (∃ a, entriesFor (process_message st user_id message outcome).1.pending_actions user_id
          = [(user_id, a)]) ∨
       entriesFor (process_message st user_id message outcome).1.pending_actions user_id
          = []) := by
  intro st u msg outcome hm
  have hshape : (process_message st u msg outcome).1.pending_actions
        = st.pending_actions ∨
      (∃ a, (process_message st u msg outcome).1.pending_actions
        = dictSet st.pending_actions u a) ∨
      (process_message st u msg outcome).1.pending_actions
        = dictDel st.pending_actions u := by
    cases outcome with
    | ok eff resp =>
      cases hl : dictLookup st.pending_actions u <;>
        simp only [process_message, hl] <;> cases eff <;>
        simp [applyPendingEffect]
    | exc =>
      cases hl : dictLookup st.pending_actions u <;>
        simp only [process_message, hl] <;> simp
  rcases hshape with h | ⟨a, h⟩ | h
  · rw [h]
    exact ⟨hm, fun v => entriesFor_length_le_one _ _ hm, fun v _ => rfl,
      Or.inl rfl⟩
  · rw [h]
    exact ⟨keysNodup_dictSet _ _ _ hm,
      fun v => entriesFor_length_le_one _ _ (keysNodup_dictSet _ _ _ hm),
      fun v hv => entriesFor_dictSet_ne _ _ _ _ hv,
      Or.inr (Or.inl ⟨a, entriesFor_dictSet_self _ _ _ hm⟩)⟩
  · rw [h]
    exact ⟨keysNodup_dictDel _ _ hm,
      fun v => entriesFor_length_le_one _ _ (keysNodup_dictDel _ _ hm),
      fun v hv => entriesFor_dictDel_ne _ _ _ hv,
      Or.inr (Or.inr (entriesFor_dictDel_self _ _))⟩

/-- Witness for C1 at a concrete state and operation. -/
theorem claim_C1_single_pending_action_witness :
    KeysNodup (process_message ⟨[], []⟩ 1 "hello" HandlerOutcome.exc).1.pending_actions ∧
    (∀ v, (entriesFor
      (process_message ⟨[], []⟩ 1 "hello" HandlerOutcome.exc).1.pending_actions v).length ≤ 1) ∧
    (∀ v, v ≠ 1 →
      entriesFor (process_message ⟨[], []⟩ 1 "hello" HandlerOutcome.exc).1.pending_actions v
        = entriesFor (AgentState.mk [] []).pending_actions v) ∧
    (entriesFor (process_message ⟨[], []⟩ 1 "hello" HandlerOutcome.exc).1.pending_actions 1
        = entriesFor (AgentState.mk [] []).pending_actions 1 ∨
     (∃ a, entriesFor (process_message ⟨[], []⟩ 1 "hello" HandlerOutcome.exc).1.pending_actions 1
        = [(1, a)]) ∨
     entriesFor (process_message ⟨[], []⟩ 1 "hello" HandlerOutcome.exc).1.pending_actions 1
        = []) :=
  claim_C1_single_pending_action ⟨[], []⟩ 1 "hello" HandlerOutcome.exc
    List.Pairwise.nil

/-- C3: when the dispatched handler raises an unhandled exception, the
    user's pending action is gone afterwards, the returned result is a
    generic recoverable-error message with success = false, and the user's
    turn is still in the conversation history. -/
theorem claim_C3_exception_recovery :
    ∀ (st : AgentState) (user_id : Nat) (message : String),
      dictLookup (process_message st user_id message
        HandlerOutcome.exc).1.pending_actions user_id = none ∧
      (process_message st user_id message HandlerOutcome.exc).2.success = false ∧
      ((process_message st user_id message HandlerOutcome.exc).2.message
          = pending_action_error_message ∨
       (process_message st user_id message HandlerOutcome.exc).2.message
          = process_error_message) ∧
      Turn.user message ∈ histFor (process_message st user_id message
        HandlerOutcome.exc).1.conversation_history user_id := by
  intro st u msg
  cases hl : dictLookup st.pending_actions u with
  | some pa =>
    refine ⟨?_, ?_, ?_, ?_⟩
    · simp only [process_message, hl]
      exact dictLookup_dictDel_self _ _
    · simp [process_message, hl]
    · simp [process_message, hl]
    · simp only [process_message, hl]
      rw [histFor_histAppend_self, histFor_histAppend_self]
      simp
  | none =>
    refine ⟨?_, ?_, ?_, ?_⟩
    · simp [process_message, hl]
    · simp [process_message, hl]
    · simp [process_message, hl]
    · simp only [process_message, hl]
      rw [histFor_histAppend_self]
      simp

/-- C10: the intent classifier can never return the delete-all intent:
    any utterance passing the delete-all rule (an all/everything keyword
    plus a cancel/delete/remove keyword) already passed the
    earlier-checked delete rule, whose keyword set contains cancel,
    delete, remove and clear, so `delete_meeting` is returned first. -/
theorem claim_C10_no_delete_all_intent :
    ∀ message : String, analyze_intent message ≠ Intent.delete_all_meetings := by
  intro message
  simp only [analyze_intent]
  split_ifs with h1 h2 h3 h4 h5
  · decide
  · decide
  · decide
  · decide
  · exfalso
    simp only [List.any_cons, List.any_nil, Bool.or_false, Bool.or_eq_true,
      Bool.and_eq_true] at h4 h5
    tauto
  · decide

/-- C7 counterexample: a rephrasing of length exactly 10 is rejected by
    the code (the check is strict, `len > 10 and len < 500`), although the
    claim's closed interval [10, 500] says it should be accepted: the
    original reply is kept. -/
theorem claim_C7_counterexample :
    ("abcdefghij" : String).length = 10 ∧
    pyStrip "abcdefghij" = "abcdefghij" ∧
    enhance_response_with_llm (LLMOutcome.ok "abcdefghij") c7_original_response
      = c7_original_response ∧
    c7_original_response.message ≠ "abcdefghij" := by
  refine ⟨by decide, by decide, by decide, by decide⟩

/-- C7 (amended): the stripped rephrasing replaces the reply if and only
    if its length is strictly between 10 and 500 characters; on a failed
    call the original text is kept with no retry, except that a
    rate-limit failure appends the availability note when the original
    does not already mention the service. -/
theorem claim_C7_amended :
    (∀ (content : String) (response : AgentResponse),
      (10 < (pyStrip content).length → (pyStrip content).length < 500 →
        enhance_response_with_llm (LLMOutcome.ok content) response
          = { response with message := pyStrip content }) ∧
      ((pyStrip content).length ≤ 10 ∨ 500 ≤ (pyStrip content).length →
        enhance_response_with_llm (LLMOutcome.ok content) response = response)) ∧
    (∀ (err : String) (response : AgentResponse),
      (isRateLimitError err = false →
        enhance_response_with_llm (LLMOutcome.failed err) response = response) ∧
      (mentionsServiceIssue response.message = true →
        enhance_response_with_llm (LLMOutcome.failed err) response = response) ∧
      (isRateLimitError err = true → mentionsServiceIssue response.message = false →
        enhance_response_with_llm (LLMOutcome.failed err) response
          = { response with message := response.message ++ rate_limit_note })) := by
  constructor
  · intro content response
    constructor
    · intro h10 h500
      simp only [enhance_response_with_llm]
      rw [if_pos (by simp [h10, h500])]
    · intro h
      simp only [enhance_response_with_llm]
      rw [if_neg (by simp; omega)]
  · intro err response
    refine ⟨?_, ?_, ?_⟩
    · intro hrl
      simp only [enhance_response_with_llm]
      rw [if_neg (by simp [hrl])]
    · intro hms
      simp only [enhance_response_with_llm]
      rw [if_neg (by simp [hms])]
    · intro hrl hms
      simp only [enhance_response_with_llm]
      rw [if_pos (by simp [hrl, hms])]

/-- Witness for C7 (amended): a 20-character rephrasing is accepted; a
    rate-limit failure appends the note to a reply that does not mention
    the service. -/
theorem claim_C7_amended_witness :
    enhance_response_with_llm (LLMOutcome.ok " A twenty-char reply. ")
        c7_original_response
      = { c7_original_response with message := pyStrip " A twenty-char reply. " } ∧
    enhance_response_with_llm (LLMOutcome.failed "429 rate limited")
        c7_original_response
      = { c7_original_response with
          message := c7_original_response.message ++ rate_limit_note } :=
  ⟨(claim_C7_amended.1 " A twenty-char reply. " c7_original_response).1
      (by decide) (by decide),
   (claim_C7_amended.2 "429 rate limited" c7_original_response).2.2
      (by decide) (by decide)⟩

/-- C9 counterexample: for the scenario-B utterance with the model-based
    extraction discarded, the rule-based extractor finds a title
    ("schedule a", the two words before "meeting"), a time, a duration
    and participants, so NOTHING is missing: the stored pending action is
    the confirm-create proposal, not the awaiting-create-details action
    with missing_fields = ["meeting title"] that the claim asserts. -/
theorem claim_C9_counterexample :
    (handle_create_meeting_conversational 0 (ModelExtraction.output none) false
        scenarioBMessage).1
      = PendingEffect.set (PendingAction.confirm_create_meeting (scenarioBInfo 0)) ∧
    extract_meeting_info 0 scenarioBMessage = scenarioBInfo 0 ∧
    compute_missing_fields (extract_meeting_info 0 scenarioBMessage) = [] := by
  refine ⟨by decide, by decide, by decide⟩

/-- C9 (amended): the scenario-B utterance classifies as a create intent;
    when the model-based extraction output is discarded the rule-based
    extractor yields title "schedule a", start today 14:00, duration 30,
    participants ["a@b.com"], so no field is missing and the handler
    stores the confirm-create pending action and replies with the
    proposal-confirmation prompt (not a title request); when the
    model-based call itself fails, the handler's except clause returns an
    error reply and no pending action is stored. -/
theorem claim_C9_amended :
    ∀ (today : Nat) (clarify_llm_ok : Bool),
      analyze_intent scenarioBMessage = Intent.create_meeting ∧
      extract_meeting_info today scenarioBMessage = scenarioBInfo today ∧
      handle_create_meeting_conversational today (ModelExtraction.output none)
          clarify_llm_ok scenarioBMessage
        = (PendingEffect.set
            (PendingAction.confirm_create_meeting (scenarioBInfo today)),
           CreateReply.confirm_proposal (scenarioBInfo today)) ∧
      handle_create_meeting_conversational today ModelExtraction.unavailable
          clarify_llm_ok scenarioBMessage
        = (PendingEffect.keep, CreateReply.create_error) := by
  intro today clarify_llm_ok
  exact ⟨by decide, rfl, rfl, rfl⟩

/-- Witness for C6 at a concrete query: with an empty store the 09:00
    slot of day 0 is suggested and participant 1 has no conflict there. -/
theorem claim_C6_meeting_suggestions_witness :
    mkSuggestion [1] 60 540 ∈ get_meeting_suggestions [] [1] 60 0 0 ∧
    check_meeting_conflicts [] 1 (mkSuggestion [1] 60 540).start_time
      (mkSuggestion [1] 60 540).end_time = [] := by
  have hmem : mkSuggestion [1] 60 540 ∈ get_meeting_suggestions [] [1] 60 0 0 := by
    simp only [get_meeting_suggestions]
    rw [suggestLoop_step _ _ _ _ _ (by omega), suggestLoop_stop _ _ _ _ _ (by omega)]
    decide
  exact ⟨hmem,
    (claim_C6_meeting_suggestions [] [1] 60 0 0).2.2.2.2 1 (by decide) _ hmem⟩
